import Mathlib

/-!
Verification development for the TPT-Scripts preview generator
(`tpt_preview.py`).  The definitions below are a shallow embedding of the
watermarking / rasterization pipeline and of the page-selection parsing
code.  Python floats are idealised as rationals (`ℚ`), Python ints as `ℤ`
(or `ℕ` where the source value is provably non-negative), and code that can
raise an exception is embedded with `Option` / `Except`.  Pixel-level
library primitives (font measurement, text drawing, rotation) are supplied
as explicit parameters (`PILPrims`), since only their size behaviour — not
their pixel contents — is determined by the repository's code.
-/

/-- A single pixel: red, green, blue, alpha channels (PIL stores 0..255
ints per channel; channel arithmetic is embedded over `ℤ`). -/
structure RGBA where
  r : ℤ
  g : ℤ
  b : ℤ
  a : ℤ
deriving DecidableEq

/-- An in-memory raster image: a size together with a pixel function. -/
structure Image where
  width : ℕ
  height : ℕ
  pix : ℕ → ℕ → RGBA

/-- The fully transparent pixel `(0, 0, 0, 0)` used for fresh overlays. -/
def transparent : RGBA := ⟨0, 0, 0, 0⟩

/-- `Image.new(mode, (w, h), color)`: a constant image of the given size. -/
def Image.new (w h : ℕ) (c : RGBA) : Image := ⟨w, h, fun _ _ => c⟩

/-- Alpha-over compositing of a foreground pixel onto a background pixel.
Models PIL's premultiplied alpha compositing up to integer rounding; the
exact channel values are irrelevant to every property proved below. -/
def overPix (fg bg : RGBA) : RGBA :=
  let oa := fg.a + bg.a * (255 - fg.a) / 255
  { r := (fg.r * fg.a + bg.r * bg.a * (255 - fg.a) / 255) / max oa 1
    g := (fg.g * fg.a + bg.g * bg.a * (255 - fg.a) / 255) / max oa 1
    b := (fg.b * fg.a + bg.b * bg.a * (255 - fg.a) / 255) / max oa 1
    a := oa }

/-- `img.convert("RGBA")`: the source image reaching this call is an opaque
RGB raster, so conversion forces the alpha channel to 255.  Size is
unchanged (PIL mode conversion never resizes). -/
def Image.convertRGBA (img : Image) : Image :=
  { img with pix := fun x y => let p := img.pix x y; ⟨p.r, p.g, p.b, 255⟩ }

/-- `img.convert("RGB")`: drop the alpha channel (PIL represents the result
with an opaque alpha).  Size is unchanged. -/
def Image.convertRGB (img : Image) : Image :=
  { img with pix := fun x y => let p := img.pix x y; ⟨p.r, p.g, p.b, 255⟩ }

/-- `base.alpha_composite(tile, dest=(dx, dy))`: in-place compositing of
`tile` over `base` with its top-left corner at `(dx, dy)`; parts of the
tile falling outside `base` are cropped.  The size of `base` is unchanged. -/
def pasteAlpha (base tile : Image) (dx dy : ℤ) : Image :=
  { base with pix := fun x y =>
      if dx ≤ (x : ℤ) ∧ (x : ℤ) < dx + tile.width ∧ dy ≤ (y : ℤ) ∧ (y : ℤ) < dy + tile.height then
        overPix (tile.pix ((x : ℤ) - dx).toNat ((y : ℤ) - dy).toNat) (base.pix x y)
      else base.pix x y }

/-- Module-level `Image.alpha_composite(im1, im2)`: PIL raises `ValueError`
when the two images differ in size, so the embedding returns `none` in
that case; otherwise `im2` is composited over `im1`. -/
def alphaComposite (im1 im2 : Image) : Option Image :=
  if im1.width = im2.width ∧ im1.height = im2.height then
    some { width := im1.width, height := im1.height
           pix := fun x y => overPix (im2.pix x y) (im1.pix x y) }
  else none

/-- The PIL primitives `tile_watermark` calls whose pixel-level behaviour
is outside the repository: text measurement (`draw.textbbox` width/height
for a font size), text drawing (pixels of the tile after `draw.text`; the
draw is in place, so it cannot change the tile's size), and
`tile.rotate(angle, expand=True)` (which may change the size). -/
structure PILPrims where
  measure : ℕ → String → ℕ × ℕ
  drawTextPix : (ℕ → ℕ → RGBA) → ℤ × ℤ → String → ℕ → RGBA → ℕ → ℕ → RGBA
  rotate : Image → ℚ → Image

/-- Python `int()` applied to a float: truncation toward zero. -/
def pyTrunc (q : ℚ) : ℤ := if 0 ≤ q then ⌊q⌋ else ⌈q⌉

/-- Python `str.strip()` on a list of characters: drop whitespace from both
ends. -/
def pyStripChars (cs : List Char) : List Char :=
  ((cs.dropWhile Char.isWhitespace).reverse.dropWhile Char.isWhitespace).reverse

/-- Python `s.strip()`: the stripped character sequence of a string. -/
def pyStrip (s : String) : List Char := pyStripChars s.toList

/-- `tile_side = int(math.hypot(text_w, text_h)) + 10` from
`tile_watermark`: the truncation of the exact hypotenuse of two natural
lengths is `Nat.sqrt` of the sum of squares. -/
def tileSide (text_w text_h : ℕ) : ℕ :=
  Nat.sqrt (text_w * text_w + text_h * text_h) + 10

/-- `step = int(max(40, min(tile.size) * (1.0 - coverage * 0.85)))` from
`tile_watermark` (the argument of `int` is ≥ 40, so truncation is floor). -/
def wmStep (tileW tileH : ℕ) (coverage : ℚ) : ℤ :=
  ⌊max 40 ((min tileW tileH : ℚ) * (1 - coverage * (17 / 20)))⌋

/-- `step_x = max(40, tile.size[0] - step)` from `tile_watermark`. -/
def wmStepX (tileW tileH : ℕ) (coverage : ℚ) : ℤ :=
  max 40 ((tileW : ℤ) - wmStep tileW tileH coverage)

/-- `step_y = max(40, tile.size[1] - step)` from `tile_watermark`. -/
def wmStepY (tileW tileH : ℕ) (coverage : ℚ) : ℤ :=
  max 40 ((tileH : ℤ) - wmStep tileW tileH coverage)

/-- The number of elements of Python's `range(start, stop, step)` for a
positive `step` (0 when the range is empty). -/
def rangeLen (start stop step : ℤ) : ℕ :=
  if 0 < step ∧ start < stop then ((stop - start + step - 1) / step).toNat else 0

/-- Python's `range(start, stop, step)` for a positive `step`, as the list
`[start, start + step, ...)` of all visited values below `stop`. -/
def intRange (start stop step : ℤ) : List ℤ :=
  (List.range (rangeLen start stop step)).map fun i : ℕ => start + step * (i : ℤ)

/-- The sequence of `dest=(x, y)` positions visited by the two nested
tiling loops of `tile_watermark` (outer loop over `y`, inner over `x`),
for an image of size `w × h` and a rotated tile of size `tileW × tileH`. -/
def stampPlacements (w h tileW tileH : ℕ) (coverage : ℚ) : List (ℤ × ℤ) :=
  (intRange (-(tileH : ℤ)) ((h : ℤ) + tileH) (wmStepY tileW tileH coverage)).flatMap fun y =>
    (intRange (-(tileW : ℤ)) ((w : ℤ) + tileW) (wmStepX tileW tileH coverage)).map fun x => (x, y)

/-- The rotated stamp tile built by `tile_watermark`: a transparent square
of side `tile_side`, the text drawn centred at the fill opacity
(`int(255 * opacity)` as the alpha value), rotated by `angle_deg` with an
expanding canvas. -/
def wmTile (prims : PILPrims) (text : String) (opacity : ℚ) (angle_deg : ℚ)
    (font_size : ℕ) : Image :=
  let m := prims.measure font_size text
  let side := tileSide m.1 m.2
  let tile0 : Image := Image.new side side transparent
  let tx := ((side : ℤ) - m.1) / 2
  let ty := ((side : ℤ) - m.2) / 2
  let fill : RGBA := ⟨0, 0, 0, pyTrunc (255 * opacity)⟩
  let tile1 : Image := { tile0 with
    pix := prims.drawTextPix tile0.pix (tx, ty) text font_size fill }
  prims.rotate tile1 angle_deg

/-- The full-page transparent overlay of `tile_watermark`: the rotated
tile alpha-composited at every loop position onto a fresh transparent
image of the page's size. -/
def wmOverlay (w h : ℕ) (tile : Image) (coverage : ℚ) : Image :=
  (stampPlacements w h tile.width tile.height coverage).foldl
    (fun ov p => pasteAlpha ov tile p.1 p.2) (Image.new w h transparent)

/-- `tile_watermark(img, text, opacity, angle_deg, font_size, coverage)`:
build a square tile containing the text, rotate it, and tile it across a
transparent overlay that is alpha-composited over the page raster.
Returns `none` exactly when the final `Image.alpha_composite` would raise
(it never does — see the size invariant proved below). -/
def tile_watermark (prims : PILPrims) (img : Image) (text : String)
    (opacity : ℚ) (angle_deg : ℚ) (font_size : ℕ) (coverage : ℚ) : Option Image :=
  if pyStrip text = [] then some img
  else
    let tile := wmTile prims text opacity angle_deg font_size
    let overlay := wmOverlay img.width img.height tile coverage
    (alphaComposite img.convertRGBA overlay).map Image.convertRGB

/-- A decoded PDF document: a page count together with a per-page renderer
(`page.get_pixmap` at a given dpi followed by `pil_from_pix`, 0-based page
index) that may raise. -/
structure PDoc where
  pageCount : ℕ
  render : ℕ → ℕ → Except String Image

/-- Python `sorted(set(l))`: the ascending duplicate-free enumeration of
the elements of `l`. -/
def sortedDedup (l : List ℤ) : List ℤ := l.dedup.insertionSort (· ≤ ·)

/-- One iteration of the page loop of `rasterize_pages_with_watermark`:
skip an out-of-range index, otherwise render the page, watermark it, and
append the result.  The loop body has no exception handler (the source's
`try/finally` only closes the document), so a failure is returned as an
error rather than skipped. -/
def rasterizeStep (prims : PILPrims) (doc : PDoc) (dpi : ℕ) (wm_text : String)
    (wm_opacity wm_angle : ℚ) (wm_font_size : ℕ) (wm_coverage : ℚ)
    (images : List Image) (pnum : ℤ) : Except String (List Image) :=
  if pnum < 1 ∨ (doc.pageCount : ℤ) < pnum then .ok images
  else
    match doc.render dpi (pnum - 1).toNat with
    | .error e => .error e
    | .ok img =>
      match tile_watermark prims img wm_text wm_opacity wm_angle wm_font_size wm_coverage with
      | none => .error "images do not match"
      | some wm => .ok (images ++ [wm.convertRGB])

/-- `rasterize_pages_with_watermark`: iterate over
`sorted(set(pages_to_keep))` with `rasterizeStep`, starting from the empty
image list (the early `return images` for an empty request included).
Any per-page error propagates and aborts the whole call. -/
def rasterize_pages_with_watermark (prims : PILPrims) (doc : PDoc)
    (pages_to_keep : List ℤ) (dpi : ℕ) (wm_text : String)
    (wm_opacity wm_angle : ℚ) (wm_font_size : ℕ) (wm_coverage : ℚ) :
    Except String (List Image) :=
  if pages_to_keep = [] then .ok []
  else
    (sortedDedup pages_to_keep).foldlM
      (rasterizeStep prims doc dpi wm_text wm_opacity wm_angle wm_font_size wm_coverage) []

/-- Helper for `pyInt`: the value of an all-digit character sequence
(`none` as soon as a non-digit character appears). -/
def digitsValAux : ℕ → List Char → Option ℕ
  | acc, [] => some acc
  | acc, c :: cs => if c.isDigit then digitsValAux (10 * acc + (c.toNat - 48)) cs else none

/-- Python `int(s)` on a string token: strip surrounding whitespace, accept
an optional sign followed by at least one digit; anything else raises
`ValueError`, embedded as `none`. -/
def pyInt (cs : List Char) : Option ℤ :=
  match pyStripChars cs with
  | [] => none
  | '-' :: ds => if ds.isEmpty then none else (digitsValAux 0 ds).map fun n => -(n : ℤ)
  | '+' :: ds => if ds.isEmpty then none else (digitsValAux 0 ds).map fun n => (n : ℤ)
  | ds => (digitsValAux 0 ds).map fun n => (n : ℤ)

/-- Python `s.split(sep)` for a one-character separator (always returns at
least one, possibly empty, token). -/
def splitOnChar (sep : Char) : List Char → List (List Char)
  | [] => [[]]
  | c :: cs =>
    if c = sep then [] :: splitOnChar sep cs
    else
      match splitOnChar sep cs with
      | t :: ts => (c :: t) :: ts
      | [] => [[c]]

/-- Python `s.split(sep, 1)` for a one-character separator: the parts
before and after the first occurrence (`none` when the separator is
absent, where unpacking `a, b = ...` would raise). -/
def splitFirst (sep : Char) : List Char → Option (List Char × List Char)
  | [] => none
  | c :: cs =>
    if c = sep then some ([], cs)
    else (splitFirst sep cs).map fun p => (c :: p.1, p.2)

/-- The body of the range directive `a-b` in the per-file selection UI:
`for i in range(a, b + 1): if 1 <= i <= page_count: sel.add(i)`.
The Python `set` is embedded as a duplicate-free list (`List.insert` is
`set.add`); the caller sorts the result, so the representation order is
irrelevant. -/
def addRangeDirective (pageCount : ℕ) (sel : List ℤ) (a b : ℤ) : List ℤ :=
  (intRange a (b + 1) 1).foldl
    (fun s i => if 1 ≤ i ∧ i ≤ (pageCount : ℤ) then s.insert i else s) sel

/-- The typed-ranges parser of the per-file selection UI: split the input
on commas, trim each token and drop empty ones, then for each token either
apply a dash range (splitting on the first `-`, both halves parsed with
`int`) or parse a single integer; a token that fails to parse is skipped.
The selection set is finally returned as a sorted list
(`sorted(sel)`, embedded as an insertion sort of the duplicate-free list). -/
def parseRanges (pageCount : ℕ) (selected_pages : List ℤ) (rng : String) : List ℤ :=
  let parts := ((splitOnChar ',' rng.toList).map pyStripChars).filter fun p => p ≠ []
  let sel := parts.foldl (fun sel part =>
    if part.contains '-' then
      match splitFirst '-' part with
      | some (aStr, bStr) =>
        match pyInt aStr, pyInt bStr with
        | some a, some b => addRangeDirective pageCount sel a b
        | _, _ => sel
      | none => sel
    else
      match pyInt part with
      | some i => if 1 ≤ i ∧ i ≤ (pageCount : ℤ) then sel.insert i else sel
      | none => sel) selected_pages.dedup
  sel.insertionSort (· ≤ ·)

/-- Python `c.lower()` for a single character (ASCII case folding, the
only case relevant to the file names involved). -/
def pyLowerChar (c : Char) : Char :=
  if 'A' ≤ c ∧ c ≤ 'Z' then Char.ofNat (c.toNat + 32) else c

/-- The sort key of the merged-preview sort: `lambda x: x[0].lower()`. -/
def lowerKey (s : String) : List Char := s.toList.map pyLowerChar

/-- Lexicographic comparison of character sequences by code point —
Python's `<=` on strings. -/
def lexLe : List Char → List Char → Bool
  | [], _ => true
  | _ :: _, [] => false
  | a :: as, b :: bs => if a < b then true else if b < a then false else lexLe as bs

/-- The key order used by the merged-preview sort:
`items.sort(key=lambda x: x[0].lower())`. -/
def nameLE (x y : String × List Image) : Prop :=
  lexLe (lowerKey x.1) (lowerKey y.1) = true

instance : DecidableRel nameLE := fun _ _ => inferInstanceAs (Decidable (_ = _))

/-- The sort placed on the named output sets before merging (Python's
`list.sort` is stable; insertion sort with a total preorder is the same
stable sort). -/
def mergeItemsByName (items : List (String × List Image)) : List (String × List Image) :=
  items.insertionSort nameLE

/-- The merged image sequence of the "By file name (A→Z)" merge option:
concatenation of the page lists in sorted order. -/
def mergedImagesByName (items : List (String × List Image)) : List Image :=
  (mergeItemsByName items).flatMap fun it => it.2

/-- Modelled from the spec: merging "in ascending lexicographic order of
their names" — a sort on the raw (case-sensitive) names, for comparison
with the source's lowercased key. -/
def mergedImagesByNameSpec (items : List (String × List Image)) : List Image :=
  (items.insertionSort fun x y => lexLe x.1.toList y.1.toList = true).flatMap fun it => it.2

/-- Modelled from the spec: the ceiling of the square root of a natural
number, used to state the spec's `tile_side = ceil(hypot(w, h)) + margin`. -/
def ceilSqrt (n : ℕ) : ℕ :=
  if Nat.sqrt n * Nat.sqrt n = n then Nat.sqrt n else Nat.sqrt n + 1

/-- Modelled from the spec: `tile_side = ceil(hypot(text_w, text_h)) + margin`
with margin 10, for comparison with the source's `tileSide`. -/
def tileSideSpec (text_w text_h : ℕ) : ℕ :=
  ceilSqrt (text_w * text_w + text_h * text_h) + 10

/-- The distinct in-range page indices of a request, in ascending order —
the pages `rasterize_pages_with_watermark` actually renders. -/
def selectedPages (pageCount : ℕ) (pages : List ℤ) : List ℤ :=
  (sortedDedup pages).filter fun p => decide (1 ≤ p) && decide (p ≤ (pageCount : ℤ))

/-- Concrete PIL primitives used to instantiate theorems with hypotheses:
zero-size text metrics, a draw that leaves pixels unchanged, an identity
rotation. -/
def trivPrims : PILPrims :=
  ⟨fun _ _ => (0, 0), fun base _ _ _ _ => base, fun i _ => i⟩

/-- A concrete 1×1 transparent image. -/
def oneImg : Image := ⟨1, 1, fun _ _ => transparent⟩

/-- A concrete 3×4 transparent image. -/
def img3x4 : Image := ⟨3, 4, fun _ _ => transparent⟩

/-- A concrete 2×2 transparent image (distinguishable from `oneImg` by its
width). -/
def twoImg : Image := ⟨2, 2, fun _ _ => transparent⟩

/-- A concrete two-page document whose pages always render. -/
def okDoc : PDoc := ⟨2, fun _ _ => .ok oneImg⟩

/-- A concrete three-page document whose second page (0-based index 1)
fails to render. -/
def failDoc : PDoc :=
  ⟨3, fun _ i => if i = 1 then .error "page render failed" else .ok oneImg⟩

/-! ### Helper lemmas -/

lemma intRange_length (start stop step : ℤ) :
    (intRange start stop step).length = rangeLen start stop step := by
  simp only [intRange, List.length_map, List.length_range]

lemma rangeLen_le_toNat (start stop step : ℤ) (h : 1 ≤ step) :
    rangeLen start stop step ≤ (stop - start).toNat := by
  unfold rangeLen
  split
  · next hc =>
    obtain ⟨hs, hlt⟩ := hc
    have hd1 : 1 ≤ stop - start := by omega
    have hb : stop - start + step - 1 ≤ (stop - start) * step := by nlinarith
    have hdiv : (stop - start + step - 1) / step ≤ stop - start :=
      calc (stop - start + step - 1) / step ≤ (stop - start) * step / step :=
            Int.ediv_le_ediv hs hb
        _ = stop - start := Int.mul_ediv_cancel _ (by omega)
    omega
  · omega

lemma mem_intRange_one {a b i : ℤ} : i ∈ intRange a (b + 1) 1 ↔ a ≤ i ∧ i ≤ b := by
  simp only [intRange, rangeLen, Int.ediv_one, List.mem_map, List.mem_range]
  split
  · next hc =>
    constructor
    · rintro ⟨k, hk, rfl⟩
      omega
    · rintro ⟨h1, h2⟩
      exact ⟨(i - a).toNat, by omega, by omega⟩
  · next hc =>
    constructor
    · rintro ⟨k, hk, _⟩
      omega
    · rintro ⟨h1, h2⟩
      exact absurd (by omega : a < b + 1) (by tauto)

lemma sortedDedup_mem {l : List ℤ} {p : ℤ} : p ∈ sortedDedup l ↔ p ∈ l := by
  unfold sortedDedup
  rw [(List.perm_insertionSort _ _).mem_iff, List.mem_dedup]

lemma sortedDedup_sorted_le (l : List ℤ) : List.Sorted (· ≤ ·) (sortedDedup l) :=
  List.sorted_insertionSort _ _

lemma sortedDedup_nodup (l : List ℤ) : (sortedDedup l).Nodup :=
  (List.perm_insertionSort _ _).nodup_iff.mpr l.nodup_dedup

lemma sortedDedup_sorted_lt (l : List ℤ) : List.Sorted (· < ·) (sortedDedup l) :=
  ((sortedDedup_sorted_le l).and (sortedDedup_nodup l)).imp
    fun h => lt_of_le_of_ne h.1 h.2

/-! ### Claim C1: stride as a function of coverage -/

lemma wmStep_antitone (tileW tileH : ℕ) (c1 c2 : ℚ) (h : c1 ≤ c2) :
    wmStep tileW tileH c2 ≤ wmStep tileW tileH c1 := by
  apply Int.floor_le_floor
  apply max_le_max le_rfl
  apply mul_le_mul_of_nonneg_left (by linarith) (by positivity)

/-- Claim C1 counterexample: with a 200×200 rotated tile, coverage 1/5
gives stride 40 while the larger coverage 1 gives stride 160 — a higher
coverage produces a strictly larger stride, so the strides are not
non-increasing in coverage. -/
theorem coverage_stride_counterexample :
    (1 / 5 : ℚ) ≤ 1 ∧ ¬ wmStepX 200 200 1 ≤ wmStepX 200 200 (1 / 5) := by
  have h1 : wmStep 200 200 1 = 40 := by
    unfold wmStep
    rw [show min (((200 : ℕ) : ℚ)) (((200 : ℕ) : ℚ)) * (1 - 1 * (17 / 20)) = 30 by
        rw [min_self]; push_cast; norm_num,
      max_eq_left (by norm_num)]
    norm_num
  have h2 : wmStep 200 200 (1 / 5) = 166 := by
    unfold wmStep
    rw [show min (((200 : ℕ) : ℚ)) (((200 : ℕ) : ℚ)) * (1 - 1 / 5 * (17 / 20)) = 166 by
        rw [min_self]; push_cast; norm_num,
      max_eq_right (by norm_num)]
    norm_num
  constructor
  · norm_num
  · unfold wmStepX
    rw [h1, h2]
    norm_num

/-- Claim C1 (amended): with all other parameters held equal, a higher
coverage value never produces a smaller tile stride — the strides
`step_x` and `step_y` used to place stamps are non-decreasing in
coverage, yielding sparser or equal tiling. -/
theorem stride_monotone_in_coverage (tileW tileH : ℕ) (c1 c2 : ℚ) (h : c1 ≤ c2) :
    wmStepX tileW tileH c1 ≤ wmStepX tileW tileH c2 ∧
    wmStepY tileW tileH c1 ≤ wmStepY tileW tileH c2 := by
  have hs := wmStep_antitone tileW tileH c1 c2 h
  exact ⟨max_le_max le_rfl (by omega), max_le_max le_rfl (by omega)⟩

/-- Witness for `stride_monotone_in_coverage` at tile 200×200 and
coverages 1/5 ≤ 4/5. -/
theorem stride_monotone_in_coverage_witness :
    (1 / 5 : ℚ) ≤ 4 / 5 ∧
    wmStepX 200 200 (1 / 5) ≤ wmStepX 200 200 (4 / 5) ∧
    wmStepY 200 200 (1 / 5) ≤ wmStepY 200 200 (4 / 5) :=
  ⟨by norm_num, (stride_monotone_in_coverage 200 200 (1 / 5) (4 / 5) (by norm_num)).1,
    (stride_monotone_in_coverage 200 200 (1 / 5) (4 / 5) (by norm_num)).2⟩

/-! ### Claim C8: the tile side -/

lemma sqrt_two_eq : Nat.sqrt 2 = 1 := by
  have h1 : 1 ≤ Nat.sqrt 2 := by rw [Nat.le_sqrt]; norm_num
  have h2 : Nat.sqrt 2 < 2 := by rw [Nat.sqrt_lt]; norm_num
  omega

/-- Claim C8 counterexample: at `text_w = text_h = 1` the source computes
`tile_side = int(hypot(1, 1)) + 10 = 1 + 10 = 11`, while the claimed
`ceil(hypot(1, 1)) + 10 = 2 + 10 = 12`. -/
theorem tile_side_counterexample :
    tileSide 1 1 = 11 ∧ tileSideSpec 1 1 = 12 ∧ tileSide 1 1 ≠ tileSideSpec 1 1 := by
  have h1 : tileSide 1 1 = 11 := by
    unfold tileSide
    norm_num [sqrt_two_eq]
  have h2 : tileSideSpec 1 1 = 12 := by
    unfold tileSideSpec ceilSqrt
    norm_num [sqrt_two_eq]
  exact ⟨h1, h2, by omega⟩

/-- Claim C8 (amended): the square tile buffer is sized
`tile_side = trunc(hypot(text_w, text_h)) + 10` — the *floor* of the text
bounding box's diagonal plus the margin 10, not its ceiling
(characterised below: `tile_side - 10` is the integer square root of
`text_w² + text_h²`); since the margin absorbs the truncation, the tile
side still bounds the text's bounding diagonal. -/
theorem tile_side_floor_diagonal (text_w text_h : ℕ) :
    (tileSide text_w text_h - 10) * (tileSide text_w text_h - 10)
        ≤ text_w * text_w + text_h * text_h ∧
    text_w * text_w + text_h * text_h
        < (tileSide text_w text_h - 9) * (tileSide text_w text_h - 9) ∧
    text_w * text_w + text_h * text_h
        ≤ tileSide text_w text_h * tileSide text_w text_h := by
  unfold tileSide
  set n := text_w * text_w + text_h * text_h with hn
  have h1 := Nat.sqrt_le n
  have h2 : n < (Nat.sqrt n + 1) * (Nat.sqrt n + 1) := by
    simpa [Nat.succ_eq_add_one] using Nat.lt_succ_sqrt n
  have h3 : (Nat.sqrt n + 1) * (Nat.sqrt n + 1) ≤ (Nat.sqrt n + 10) * (Nat.sqrt n + 10) :=
    Nat.mul_le_mul (by omega) (by omega)
  refine ⟨?_, ?_, ?_⟩
  · have he : Nat.sqrt n + 10 - 10 = Nat.sqrt n := by omega
    rw [he]; exact h1
  · have he : Nat.sqrt n + 10 - 9 = Nat.sqrt n + 1 := by omega
    rw [he]; exact h2
  · omega

/-! ### Claim C10: termination of the tiling loops -/

lemma stampPlacements_length_le (w h tileW tileH : ℕ) (c : ℚ) :
    (stampPlacements w h tileW tileH c).length ≤ (h + 2 * tileH) * (w + 2 * tileW) := by
  unfold stampPlacements
  rw [List.length_flatMap]
  have hx : ∀ x ∈ List.map (List.length ∘ fun y =>
      (intRange (-(tileW : ℤ)) ((w : ℤ) + tileW) (wmStepX tileW tileH c)).map
        fun x => (x, y))
      (intRange (-(tileH : ℤ)) ((h : ℤ) + tileH) (wmStepY tileW tileH c)),
      x ≤ w + 2 * tileW := by
    intro x hx'
    obtain ⟨y, _, rfl⟩ := List.mem_map.mp hx'
    simp only [Function.comp_apply, List.length_map, intRange_length]
    have h40 : (40 : ℤ) ≤ wmStepX tileW tileH c := le_max_left _ _
    have := rangeLen_le_toNat (-(tileW : ℤ)) ((w : ℤ) + tileW)
      (wmStepX tileW tileH c) (by omega)
    omega
  have hy : ((intRange (-(tileH : ℤ)) ((h : ℤ) + tileH) (wmStepY tileW tileH c)).length)
      ≤ h + 2 * tileH := by
    rw [intRange_length]
    have h40 : (40 : ℤ) ≤ wmStepY tileW tileH c := le_max_left _ _
    have := rangeLen_le_toNat (-(tileH : ℤ)) ((h : ℤ) + tileH)
      (wmStepY tileW tileH c) (by omega)
    omega
  have hsum := List.sum_le_card_nsmul _ _ hx
  simp only [smul_eq_mul, List.length_map] at hsum
  exact le_trans hsum (Nat.mul_le_mul_right _ hy)

/-- Claim C10: for every image size, rotated tile size and coverage value,
both tiling strides are clamped to at least 40 pixels, so each loop of
`tile_watermark` advances by a positive amount, and the total number of
stamp placements is finite — bounded by the loop extents. -/
theorem tiling_terminates (w h tileW tileH : ℕ) (c : ℚ) :
    40 ≤ wmStepX tileW tileH c ∧ 40 ≤ wmStepY tileW tileH c ∧
    (stampPlacements w h tileW tileH c).length ≤ (h + 2 * tileH) * (w + 2 * tileW) :=
  ⟨le_max_left _ _, le_max_left _ _, stampPlacements_length_le w h tileW tileH c⟩

/-! ### Claim C3: reversed range directives -/

lemma addRange_foldl_toFinset (pc : ℕ) (l : List ℤ) :
    ∀ sel : List ℤ,
      (l.foldl (fun s i => if 1 ≤ i ∧ i ≤ (pc : ℤ) then s.insert i else s) sel).toFinset
        = sel.toFinset ∪ (l.filter fun i => decide (1 ≤ i ∧ i ≤ (pc : ℤ))).toFinset := by
  induction l with
  | nil => intro sel; simp
  | cons x xs ih =>
    intro sel
    simp only [List.foldl_cons, List.filter_cons]
    by_cases hx : 1 ≤ x ∧ x ≤ (pc : ℤ)
    · rw [if_pos hx, ih,
        show decide (1 ≤ x ∧ x ≤ (pc : ℤ)) = true by simpa using hx, if_pos rfl]
      ext y
      simp only [Finset.mem_union, List.mem_toFinset, List.mem_insert_iff, List.mem_cons]
      tauto
    · rw [if_neg hx, ih,
        show decide (1 ≤ x ∧ x ≤ (pc : ℤ)) = false by simpa using hx,
        if_neg (by simp)]

/-- Claim C3 counterexample: the reversed range directive `5-3` against
`pageCount = 12`, applied to the empty selection, adds nothing (Python's
`range(5, 4)` is empty), while the claimed span
`[min(5,3) .. max(5,3)] ∩ [1, 12] = {3, 4, 5}` is non-empty (it contains
3), so the directive does not add the span. -/
theorem reversed_range_counterexample :
    addRangeDirective 12 [] 5 3 = [] ∧
    (3 : ℤ) ∈ Finset.Icc (min (5 : ℤ) 3) (max (5 : ℤ) 3) ∩ Finset.Icc 1 (12 : ℤ) := by
  constructor
  · rfl
  · simp only [Finset.mem_inter, Finset.mem_Icc]
    norm_num

/-- Claim C3 (amended): applying a range directive `a-b` to the page
selector adds exactly the indices of the inclusive span `[a..b]`
intersected with `[1, pageCount]`; when `a > b` this span is empty, so a
reversed range adds nothing (it is not reinterpreted as the span between
its two bounds). -/
theorem range_directive_adds_span (pageCount : ℕ) (sel : List ℤ) (a b : ℤ) :
    (addRangeDirective pageCount sel a b).toFinset
      = sel.toFinset ∪ (Finset.Icc a b ∩ Finset.Icc 1 (pageCount : ℤ)) := by
  unfold addRangeDirective
  rw [addRange_foldl_toFinset]
  congr 1
  ext i
  simp only [List.mem_toFinset, List.mem_filter, mem_intRange_one, Finset.mem_inter,
    Finset.mem_Icc, decide_eq_true_eq]

/-! ### Claim C4: parsing the example directive strings -/

/-- Claim C4: starting from an empty selection with `pageCount = 12`,
parsing `"1-3,6,9-10"` yields exactly `[1, 2, 3, 6, 9, 10]`, and parsing
`"1-3,abc,6"` yields exactly `[1, 2, 3, 6]` — the malformed token `abc`
is skipped without any error. -/
theorem parse_directive_examples :
    parseRanges 12 [] "1-3,6,9-10" = [1, 2, 3, 6, 9, 10] ∧
    parseRanges 12 [] "1-3,abc,6" = [1, 2, 3, 6] :=
  ⟨by decide, by decide⟩

/-! ### Claim C5: empty text is the identity -/

/-- Claim C5: for every input image and every watermark parameter
combination, if the watermark text is empty or consists only of
whitespace, `tile_watermark` returns the input raster unchanged. -/
theorem empty_text_identity (prims : PILPrims) (img : Image) (text : String)
    (opacity angle_deg : ℚ) (font_size : ℕ) (coverage : ℚ)
    (h : pyStrip text = []) :
    tile_watermark prims img text opacity angle_deg font_size coverage = some img := by
  unfold tile_watermark
  rw [if_pos h]

/-- Witness for `empty_text_identity` on a whitespace-only text. -/
theorem empty_text_identity_witness :
    pyStrip "   " = [] ∧
    tile_watermark trivPrims oneImg "   " (1 / 2) 45 80 (7 / 10) = some oneImg :=
  ⟨by decide, empty_text_identity trivPrims oneImg "   " (1 / 2) 45 80 (7 / 10) (by decide)⟩

/-! ### Claim C6: dimensions are preserved -/

lemma foldl_paste_size (tile : Image) (l : List (ℤ × ℤ)) :
    ∀ acc : Image,
      (l.foldl (fun ov p => pasteAlpha ov tile p.1 p.2) acc).width = acc.width ∧
      (l.foldl (fun ov p => pasteAlpha ov tile p.1 p.2) acc).height = acc.height := by
  induction l with
  | nil => intro acc; exact ⟨rfl, rfl⟩
  | cons x xs ih =>
    intro acc
    simpa only [List.foldl_cons] using ih (pasteAlpha acc tile x.1 x.2)

lemma wmOverlay_size (w h : ℕ) (tile : Image) (coverage : ℚ) :
    (wmOverlay w h tile coverage).width = w ∧ (wmOverlay w h tile coverage).height = h :=
  foldl_paste_size tile _ (Image.new w h transparent)

lemma alphaComposite_of_size (im1 im2 : Image)
    (hw : im1.width = im2.width) (hh : im1.height = im2.height) :
    alphaComposite im1 im2 = some
      { width := im1.width, height := im1.height
        pix := fun x y => overPix (im2.pix x y) (im1.pix x y) } := by
  unfold alphaComposite
  rw [if_pos ⟨hw, hh⟩]

lemma tile_watermark_size (prims : PILPrims) (img : Image) (text : String)
    (opacity angle_deg : ℚ) (font_size : ℕ) (coverage : ℚ) :
    ∃ out, tile_watermark prims img text opacity angle_deg font_size coverage = some out ∧
      out.width = img.width ∧ out.height = img.height := by
  unfold tile_watermark
  split
  · exact ⟨img, rfl, rfl, rfl⟩
  · obtain ⟨hw, hh⟩ := wmOverlay_size img.width img.height
      (wmTile prims text opacity angle_deg font_size) coverage
    show ∃ out,
      Option.map Image.convertRGB
        (alphaComposite img.convertRGBA
          (wmOverlay img.width img.height
            (wmTile prims text opacity angle_deg font_size) coverage))
        = some out ∧ out.width = img.width ∧ out.height = img.height
    rw [alphaComposite_of_size img.convertRGBA
      (wmOverlay img.width img.height
        (wmTile prims text opacity angle_deg font_size) coverage)
      (by rw [hw]; rfl) (by rw [hh]; rfl)]
    exact ⟨_, rfl, rfl, rfl⟩

/-- Claim C6: for every input image and every valid WatermarkSpec (any
text, opacity in (0,1], any angle, positive font size, coverage in
(0,1]), `tile_watermark` succeeds and its output has exactly the same
pixel width and height as the input image. -/
theorem watermark_preserves_dimensions (prims : PILPrims) (img : Image) (text : String)
    (opacity angle_deg : ℚ) (font_size : ℕ) (coverage : ℚ)
    (_hop1 : 0 < opacity) (_hop2 : opacity ≤ 1) (_hfs : 0 < font_size)
    (_hc1 : 0 < coverage) (_hc2 : coverage ≤ 1) :
    ∃ out, tile_watermark prims img text opacity angle_deg font_size coverage = some out ∧
      out.width = img.width ∧ out.height = img.height :=
  tile_watermark_size prims img text opacity angle_deg font_size coverage

/-- Witness for `watermark_preserves_dimensions` on a 3×4 image with a
concrete valid WatermarkSpec. -/
theorem watermark_preserves_dimensions_witness :
    (0 : ℚ) < 1 / 2 ∧ (1 / 2 : ℚ) ≤ 1 ∧ 0 < 80 ∧ (0 : ℚ) < 4 / 5 ∧ (4 / 5 : ℚ) ≤ 1 ∧
    (∃ out, tile_watermark trivPrims img3x4 "WM" (1 / 2) 45 80 (4 / 5) = some out ∧
      out.width = img3x4.width ∧ out.height = img3x4.height) :=
  ⟨by norm_num, by norm_num, by norm_num, by norm_num, by norm_num,
    watermark_preserves_dimensions trivPrims img3x4 "WM" (1 / 2) 45 80 (4 / 5)
      (by norm_num) (by norm_num) (by norm_num) (by norm_num) (by norm_num)⟩

/-! ### Claims C7 and C2: the page loop -/

lemma except_bind_ok {σ α β : Type} (a : α) (k : α → Except σ β) :
    (Except.ok a : Except σ α) >>= k = k a := rfl

lemma except_bind_error {σ α β : Type} (e : σ) (k : α → Except σ β) :
    (Except.error e : Except σ α) >>= k = Except.error e := rfl

lemma foldlM_rasterizeStep_ok (prims : PILPrims) (doc : PDoc) (dpi : ℕ) (text : String)
    (o ang : ℚ) (fs : ℕ) (cov : ℚ) (f g : ℤ → Image) (l : List ℤ) :
    ∀ acc : List Image,
      (∀ p ∈ l, 1 ≤ p → p ≤ (doc.pageCount : ℤ) → doc.render dpi (p - 1).toNat = .ok (f p)) →
      (∀ p ∈ l, tile_watermark prims (f p) text o ang fs cov = some (g p)) →
      l.foldlM (rasterizeStep prims doc dpi text o ang fs cov) acc
        = .ok (acc ++
            (l.filter fun p => decide (1 ≤ p) && decide (p ≤ (doc.pageCount : ℤ))).map
              fun p => (g p).convertRGB) := by
  induction l with
  | nil =>
    intro acc _ _
    rw [List.foldlM_nil, List.filter_nil, List.map_nil, List.append_nil]
    rfl
  | cons x xs ih =>
    intro acc hf hg
    rw [List.foldlM_cons]
    by_cases hx : x < 1 ∨ (doc.pageCount : ℤ) < x
    · have hpred : (decide (1 ≤ x) && decide (x ≤ (doc.pageCount : ℤ))) = false := by
        rcases hx with h | h <;> simp <;> omega
      rw [show rasterizeStep prims doc dpi text o ang fs cov acc x = .ok acc by
            unfold rasterizeStep; rw [if_pos hx]]
      rw [except_bind_ok, List.filter_cons, hpred, if_neg (by simp)]
      exact ih acc (fun p hp => hf p (List.mem_cons_of_mem _ hp))
        (fun p hp => hg p (List.mem_cons_of_mem _ hp))
    · have hx' := hx
      push_neg at hx'
      obtain ⟨h1, h2⟩ := hx'
      have hmem : x ∈ x :: xs := List.mem_cons_self x xs
      have hpred : (decide (1 ≤ x) && decide (x ≤ (doc.pageCount : ℤ))) = true := by
        simp only [Bool.and_eq_true, decide_eq_true_eq]
        omega
      have hstep : rasterizeStep prims doc dpi text o ang fs cov acc x
          = .ok (acc ++ [(g x).convertRGB]) := by
        unfold rasterizeStep
        rw [if_neg hx]
        simp only [hf x hmem (by omega) h2, hg x hmem]
      rw [hstep, except_bind_ok, List.filter_cons, hpred, if_pos rfl]
      rw [ih (acc ++ [(g x).convertRGB])
        (fun p hp => hf p (List.mem_cons_of_mem _ hp))
        (fun p hp => hg p (List.mem_cons_of_mem _ hp))]
      simp

/-- Claim C7: for every document and every list `pages_to_keep` (in any
order, possibly with duplicates and out-of-range values) whose in-range
pages all render, the OutputSet of `rasterize_pages_with_watermark`
contains exactly one image per distinct in-range index, ordered by
ascending page index, and out-of-range indices (below 1 or above the page
count) are silently dropped without error. -/
theorem output_set_exactly_in_range (prims : PILPrims) (doc : PDoc) (pages : List ℤ)
    (dpi : ℕ) (text : String) (o ang : ℚ) (fs : ℕ) (cov : ℚ) (f g : ℤ → Image)
    (hf : ∀ p ∈ pages, 1 ≤ p → p ≤ (doc.pageCount : ℤ) →
      doc.render dpi (p - 1).toNat = .ok (f p))
    (hg : ∀ p ∈ pages, tile_watermark prims (f p) text o ang fs cov = some (g p)) :
    rasterize_pages_with_watermark prims doc pages dpi text o ang fs cov
      = .ok ((selectedPages doc.pageCount pages).map fun p => (g p).convertRGB) ∧
    List.Sorted (· < ·) (selectedPages doc.pageCount pages) ∧
    ∀ p : ℤ, p ∈ selectedPages doc.pageCount pages ↔
      p ∈ pages ∧ 1 ≤ p ∧ p ≤ (doc.pageCount : ℤ) := by
  refine ⟨?_, ?_, ?_⟩
  · unfold rasterize_pages_with_watermark
    by_cases hnil : pages = []
    · subst hnil
      rw [if_pos rfl]
      rfl
    · rw [if_neg hnil]
      rw [foldlM_rasterizeStep_ok prims doc dpi text o ang fs cov f g (sortedDedup pages) []
        (fun p hp => hf p (sortedDedup_mem.mp hp))
        (fun p hp => hg p (sortedDedup_mem.mp hp))]
      rw [List.nil_append]
      rfl
  · exact List.Pairwise.sublist (List.filter_sublist _) (sortedDedup_sorted_lt pages)
  · intro p
    unfold selectedPages
    rw [List.mem_filter, sortedDedup_mem]
    simp [and_assoc]

/-- Witness for `output_set_exactly_in_range`: a two-page document, the
request `[2, 1, 2, 5, 0]` (unordered, duplicated, out of range on both
sides), every page rendering to the same 1×1 image. -/
theorem output_set_exactly_in_range_witness :
    rasterize_pages_with_watermark trivPrims okDoc [2, 1, 2, 5, 0] 150 "" 1 45 80 (4 / 5)
      = .ok ((selectedPages okDoc.pageCount [2, 1, 2, 5, 0]).map
          fun _ => oneImg.convertRGB) ∧
    List.Sorted (· < ·) (selectedPages okDoc.pageCount [2, 1, 2, 5, 0]) ∧
    ∀ p : ℤ, p ∈ selectedPages okDoc.pageCount [2, 1, 2, 5, 0] ↔
      p ∈ ([2, 1, 2, 5, 0] : List ℤ) ∧ 1 ≤ p ∧ p ≤ (okDoc.pageCount : ℤ) :=
  output_set_exactly_in_range trivPrims okDoc [2, 1, 2, 5, 0] 150 "" 1 45 80 (4 / 5)
    (fun _ => oneImg) (fun _ => oneImg)
    (fun _ _ _ _ => rfl) (fun _ _ => rfl)

lemma foldlM_rasterizeStep_error (prims : PILPrims) (doc : PDoc) (dpi : ℕ) (text : String)
    (o ang : ℚ) (fs : ℕ) (cov : ℚ) (l : List ℤ) :
    ∀ (acc : List Image) (p : ℤ), p ∈ l → 1 ≤ p → p ≤ (doc.pageCount : ℤ) →
      (∃ err, doc.render dpi (p - 1).toNat = .error err) →
      ∃ e, l.foldlM (rasterizeStep prims doc dpi text o ang fs cov) acc = .error e := by
  induction l with
  | nil => intro acc p hp _ _ _; exact absurd hp (List.not_mem_nil p)
  | cons x xs ih =>
    intro acc p hp h1 h2 herr
    rw [List.foldlM_cons]
    rcases List.mem_cons.mp hp with rfl | hptail
    · obtain ⟨err, herr⟩ := herr
      have hstep : rasterizeStep prims doc dpi text o ang fs cov acc p = .error err := by
        unfold rasterizeStep
        rw [if_neg (by omega)]
        simp only [herr]
      rw [hstep, except_bind_error]
      exact ⟨err, rfl⟩
    · cases hstepcase : rasterizeStep prims doc dpi text o ang fs cov acc x with
      | error e => exact ⟨e, rfl⟩
      | ok acc2 => rw [except_bind_ok]; exact ih acc2 p hptail h1 h2 herr

/-- Claim C2 counterexample: a three-page document whose page 2 fails to
render, with selection `[1, 2, 3]`: instead of skipping page 2 and
returning images for pages 1 and 3, `rasterize_pages_with_watermark`
propagates the error and produces no output at all. -/
theorem page_failure_abort_counterexample :
    rasterize_pages_with_watermark trivPrims failDoc [1, 2, 3] 150 "" (1 / 2) 45 80 (4 / 5)
      = .error "page render failed" := rfl

/-- Claim C2 (amended): if rendering any selected in-range page raises an
error, `rasterize_pages_with_watermark` propagates an error: the whole
call fails and no partial OutputSet is returned.  (Only out-of-range
indices are skipped; the loop has no per-page exception handler.) -/
theorem page_error_aborts (prims : PILPrims) (doc : PDoc) (pages : List ℤ) (dpi : ℕ)
    (text : String) (o ang : ℚ) (fs : ℕ) (cov : ℚ) (p : ℤ)
    (hp : p ∈ pages) (h1 : 1 ≤ p) (h2 : p ≤ (doc.pageCount : ℤ))
    (herr : ∃ err, doc.render dpi (p - 1).toNat = .error err) :
    ∃ e, rasterize_pages_with_watermark prims doc pages dpi text o ang fs cov
      = .error e := by
  unfold rasterize_pages_with_watermark
  rw [if_neg (by rintro rfl; exact absurd hp (List.not_mem_nil p))]
  exact foldlM_rasterizeStep_error prims doc dpi text o ang fs cov (sortedDedup pages) []
    p (sortedDedup_mem.mpr hp) h1 h2 herr

/-- Witness for `page_error_aborts` on `failDoc` with selection
`[1, 2, 3]` and page 2 failing. -/
theorem page_error_aborts_witness :
    (2 : ℤ) ∈ ([1, 2, 3] : List ℤ) ∧ (1 : ℤ) ≤ 2 ∧ (2 : ℤ) ≤ (failDoc.pageCount : ℤ) ∧
    (∃ err, failDoc.render 150 ((2 : ℤ) - 1).toNat = .error err) ∧
    ∃ e, rasterize_pages_with_watermark trivPrims failDoc [1, 2, 3] 150 "WM" (1 / 2) 45 80 (4 / 5)
      = .error e :=
  ⟨by decide, by decide, by decide, ⟨"page render failed", rfl⟩,
    page_error_aborts trivPrims failDoc [1, 2, 3] 150 "WM" (1 / 2) 45 80 (4 / 5) 2
      (by decide) (by decide) (by decide) ⟨"page render failed", rfl⟩⟩

/-! ### Claim C9: merge order -/

lemma lexLe_cons {a b : Char} {as bs : List Char} :
    lexLe (a :: as) (b :: bs) = true ↔ (a < b ∨ (a = b ∧ lexLe as bs = true)) := by
  rcases lt_trichotomy a b with h | h | h
  · simp [lexLe, h]
  · subst h
    simp [lexLe, lt_irrefl]
  · have hL : lexLe (a :: as) (b :: bs) = false := by
      simp only [lexLe]
      rw [if_neg (lt_asymm h), if_pos h]
    rw [hL]
    constructor
    · intro hfalse
      exact absurd hfalse (by simp)
    · rintro (hab | ⟨rfl, _⟩)
      · exact absurd hab (lt_asymm h)
      · exact absurd h (lt_irrefl _)

lemma lexLe_trans : ∀ a b c : List Char,
    lexLe a b = true → lexLe b c = true → lexLe a c = true
  | [], _, _, _, _ => rfl
  | _ :: _, [], _, h, _ => by simp [lexLe] at h
  | _ :: _, _ :: _, [], _, h => by simp [lexLe] at h
  | a :: as, b :: bs, c :: cs, h1, h2 => by
    rw [lexLe_cons] at h1 h2 ⊢
    rcases h1 with h1 | ⟨rfl, h1⟩
    · rcases h2 with h2 | ⟨rfl, h2⟩
      · exact Or.inl (lt_trans h1 h2)
      · exact Or.inl h1
    · rcases h2 with h2 | ⟨rfl, h2⟩
      · exact Or.inl h2
      · exact Or.inr ⟨rfl, lexLe_trans as bs cs h1 h2⟩

lemma lexLe_total : ∀ a b : List Char, lexLe a b = true ∨ lexLe b a = true
  | [], _ => Or.inl rfl
  | _ :: _, [] => Or.inr rfl
  | a :: as, b :: bs => by
    rw [lexLe_cons, lexLe_cons]
    rcases lt_trichotomy a b with h | rfl | h
    · exact Or.inl (Or.inl h)
    · rcases lexLe_total as bs with h | h
      · exact Or.inl (Or.inr ⟨rfl, h⟩)
      · exact Or.inr (Or.inr ⟨rfl, h⟩)
    · exact Or.inr (Or.inl h)

instance : IsTotal (String × List Image) nameLE :=
  ⟨fun a b => lexLe_total (lowerKey a.1) (lowerKey b.1)⟩

instance : IsTrans (String × List Image) nameLE :=
  ⟨fun a b c => lexLe_trans (lowerKey a.1) (lowerKey b.1) (lowerKey c.1)⟩

/-- Claim C9 counterexample: for output sets named `"B_preview.pdf"`
(holding the 2×2 image) and `"a_preview.pdf"` (holding the 1×1 image),
raw ascending lexicographic order puts `"B_preview.pdf"` first
(`'B' < 'a'` by code point), so the claimed merge yields widths `[2, 1]`
— but the source sorts by the lowercased name and yields widths `[1, 2]`.
The two orders disagree, so the merge is not raw-lexicographic. -/
theorem merge_by_name_counterexample :
    lexLe "B_preview.pdf".toList "a_preview.pdf".toList = true ∧
    (mergedImagesByNameSpec
        [("B_preview.pdf", [twoImg]), ("a_preview.pdf", [oneImg])]).map Image.width
      = [2, 1] ∧
    (mergedImagesByName
        [("B_preview.pdf", [twoImg]), ("a_preview.pdf", [oneImg])]).map Image.width
      = [1, 2] := by
  refine ⟨by decide, ?_, ?_⟩ <;> rfl

/-- Claim C9 (amended): when merging multiple named OutputSets with the
by-name order key, the combined image sequence concatenates the sets in
ascending lexicographic order of their *lowercased* names
(case-insensitive; the sort is a stable permutation of the inputs); in
particular, for inputs named `b_preview.pdf` and `a_preview.pdf`, the
merged output contains all of `a_preview`'s pages followed by all of
`b_preview`'s pages, and each set's internal page order is preserved. -/
theorem merge_by_lowercased_name (items : List (String × List Image))
    (P Q : List Image) :
    List.Sorted nameLE (mergeItemsByName items) ∧
    (mergeItemsByName items).Perm items ∧
    mergedImagesByName [("b_preview.pdf", P), ("a_preview.pdf", Q)] = Q ++ P := by
  refine ⟨List.sorted_insertionSort nameLE items, List.perm_insertionSort nameLE items, ?_⟩
  have h : mergedImagesByName [("b_preview.pdf", P), ("a_preview.pdf", Q)]
      = Q ++ (P ++ []) := rfl
  rw [h, List.append_nil]
